import Mathlib

/-!
# Verification of `habit_tracker.py`

Shallow embedding of the habit-tracker program (`src/habit_tracker.py`).

Two layers of the program are modelled:

* the **calculator / entity layer** (`Habit.completion_set`,
  `Habit.is_completed_on`, `Habit.mark_complete`, `Habit.unmark_complete`,
  `current_streak`, `weekly_summary`).  There, calendar dates are modelled as
  integers (Python's `date.toordinal` is an order-isomorphism between calendar
  dates and a range of integers, `date ± timedelta(days=1)` is `± 1` on
  ordinals, and `date.isoformat` is injective, so membership tests of
  `day.isoformat()` in a set of ISO strings coincide with membership tests of
  ordinals in the corresponding set of integers).  A Python `set` of dates is
  modelled by `List.dedup` of the stored list (`Habit.completion_set`), and
  Python's `sorted` over such a set is `sortDedup`.

* the **codec / persistence layer** (`habits_from_store`, `store_from_habits`,
  `load_store`, `default_store`, `action_add`).  There, values decoded from
  JSON are modelled by the inductive type `Json`, habit records by `HabitR`
  (fields kept raw, exactly as the Python `Habit` dataclass receives them from
  `habits_from_store`), and Python operations that can raise (`list(x)` on a
  non-iterable) return `Except Unit`.  File contents and the JSON parser of
  `json.load` are external to the program, so `load_store` is parameterised by
  a parser `String → ReadResult` distinguishing a parsed value, an exception
  of one of the classes the source catches, and any other exception.

The Python `while` loop of `current_streak` is modelled with fuel
(`streakFrom`); the fuel `completion_set.length + 1` is provably enough,
because the loop visits pairwise-distinct days that all belong to the
completion set (see `streakFrom_le` below).
-/

namespace HabitTracker

/-- `SCHEMA_VERSION = 1` from the source. -/
def SCHEMA_VERSION : Int := 1

/-- The `Habit` dataclass, calculator view: dates are integers (Python date
ordinals), `completions` is the stored list of dates (the source keeps a
`List[str]` of ISO dates; ISO strings of dates biject order-preservingly with
ordinals). -/
structure Habit where
  id : String
  name : String
  created_at : Int
  completions : List Int
deriving Repr, DecidableEq

/-- `Habit.completion_set`: `set(self.completions)`.  A Python set of dates is
modelled by the deduplicated list of its elements (membership is all the
program ever uses, plus `sorted`, modelled separately by `sortDedup`). -/
def Habit.completion_set (h : Habit) : List Int :=
  h.completions.dedup

/-- `Habit.is_completed_on`: `iso_day in self.completion_set()`. -/
def Habit.is_completed_on (h : Habit) (day : Int) : Bool :=
  decide (day ∈ h.completion_set)

/-- Insert `x` into a strictly-sorted list, keeping it strictly sorted
(helper used to model Python's `sorted` over a set). -/
def insertSorted (x : Int) : List Int → List Int
  | [] => [x]
  | y :: ys =>
    if x < y then x :: y :: ys
    else if x = y then y :: ys
    else y :: insertSorted x ys

/-- `sortDedup l` models Python's `sorted(s)` where `s = set(l)`: the
ascending, duplicate-free list of the elements of `l`. -/
def sortDedup (l : List Int) : List Int :=
  l.foldr insertSorted []

/-- `Habit.mark_complete`: if `iso_day` is already in the completion set,
return `False` and change nothing; otherwise add it and re-derive
`self.completions = sorted(s)`.  The mutation of the Python method is modelled
by returning the updated habit next to the returned boolean. -/
def Habit.mark_complete (h : Habit) (day : Int) : Habit × Bool :=
  if day ∈ h.completion_set then (h, false)
  else ({ h with completions := sortDedup (day :: h.completions) }, true)

/-- `Habit.unmark_complete`: if `iso_day` is not in the completion set, return
`False` and change nothing; otherwise remove it and re-derive
`self.completions = sorted(s)`. -/
def Habit.unmark_complete (h : Habit) (day : Int) : Habit × Bool :=
  if day ∈ h.completion_set then
    ({ h with completions := sortDedup (h.completions.filter (fun x => x ≠ day)) }, true)
  else (h, false)

/-- The `while day.isoformat() in completed: streak += 1; day -= timedelta(days=1)`
loop of `current_streak`, with explicit fuel.  `streakFrom_le` shows the
fuel used by `current_streak` is never exhausted, so this equals the Python
loop's count. -/
def streakFrom (completed : List Int) : Int → Nat → Nat
  | _, 0 => 0
  | day, fuel + 1 =>
    if day ∈ completed then streakFrom completed (day - 1) fuel + 1 else 0

/-- The starting day of the walk in `current_streak`: `ref` if completed,
otherwise `ref - timedelta(days=1)`. -/
def streakStart (h : Habit) (ref : Int) : Int :=
  if ref ∈ h.completion_set then ref else ref - 1

/-- `current_streak(habit, ref)`: 0 on an empty completion set, otherwise the
backward walk from `streakStart`. -/
def current_streak (h : Habit) (ref : Int) : Nat :=
  if h.completion_set = [] then 0
  else streakFrom h.completion_set (streakStart h ref) (h.completion_set.length + 1)

/-- `weekly_summary(habit, ref)`:
`days = [(ref - timedelta(days=i)).isoformat() for i in range(7)]`,
then `sum(1 for d in days if d in completed)`. -/
def weekly_summary (h : Habit) (ref : Int) : Nat :=
  (((List.range 7).map (fun (i : Nat) => ref - (i : Int))).filter
    (fun d => decide (d ∈ h.completion_set))).length

/-! ## Codec / persistence layer -/

/-- Values produced by `json.load`: `None`, booleans, numbers (the store only
ever writes integers), strings, arrays, and objects (Python dicts, which keep
insertion order and have pairwise-distinct keys). -/
inductive Json where
  | null
  | bool (b : Bool)
  | num (n : Int)
  | str (s : String)
  | arr (xs : List Json)
  | obj (fields : List (String × Json))
deriving Repr

/-- Python's `str(x)` on a JSON-decoded value.  The program applies it only
to `id`, `name` and `created_at` values, and only ever inspects the result
for string equality and emptiness; so what matters (and holds of Python's
`str`) is that `str` of a string is that string and `str` of any non-string
JSON value is non-empty (`"None"`, `"True"`, `"0"`, `"[]"`, ... are all
non-empty).  Rendering of the contents of composite values is abbreviated. -/
def pyStr : Json → String
  | .null => "None"
  | .bool b => if b then "True" else "False"
  | .num n => toString n
  | .str s => s
  | .arr _ => "[...]"
  | .obj _ => "\x7b...\x7d"

/-- Python's `list(x)` (and `for ... in x`) on a JSON-decoded value: a list
yields its elements, a string yields its one-character substrings, a dict
yields its keys; `None`, booleans and numbers are not iterable and raise
`TypeError`, modelled by `Except.error`. -/
def pyList : Json → Except Unit (List Json)
  | .arr xs => .ok xs
  | .str s => .ok (s.toList.map (fun c => .str (String.singleton c)))
  | .obj fields => .ok (fields.map (fun p => .str p.1))
  | _ => .error ()

/-- Python's `d.get(key, default)` on a dict, given as its field list; the
first binding wins (Python dicts have pairwise-distinct keys anyway). -/
def jsonGet (fields : List (String × Json)) (key : String) (dflt : Json) : Json :=
  match fields.find? (fun p => p.1 == key) with
  | some p => p.2
  | none => dflt

/-- Python's `d[key] = v` on a dict: replace the binding if the key is
present (it keeps its position), otherwise append it. -/
def setKey (fields : List (String × Json)) (key : String) (v : Json) :
    List (String × Json) :=
  if fields.any (fun p => p.1 == key) then
    fields.map (fun p => if p.1 == key then (p.1, v) else p)
  else fields ++ [(key, v)]

/-- The `Habit` dataclass, codec view: fields exactly as `habits_from_store`
builds them — `id`, `name`, `created_at` are the `str(...)` of the stored
values and `completions` is the raw list produced by `list(...)` (its
elements are arbitrary JSON values; nothing coerces them). -/
structure HabitR where
  id : String
  name : String
  created_at : String
  completions : List Json
deriving Repr

/-- One iteration of the loop in `habits_from_store`: a non-dict entry is
skipped (`none`); for a dict entry, missing `id`/`name` default to `""`,
missing `created_at` defaults to today's ISO date (`todayS`), missing
`completions` defaults to `[]`; `list(...)` of a non-iterable `completions`
value raises. -/
def decodeEntry (todayS : String) : Json → Except Unit (Option HabitR)
  | .obj fields =>
    match pyList (jsonGet fields "completions" (.arr [])) with
    | .error e => .error e
    | .ok comps =>
      .ok (some { id := pyStr (jsonGet fields "id" (.str ""))
                  name := pyStr (jsonGet fields "name" (.str ""))
                  created_at := pyStr (jsonGet fields "created_at" (.str todayS))
                  completions := comps })
  | _ => .ok none

/-- `habits_from_store(store)`: iterate over `store.get("habits", [])`
(raising `TypeError` if that value is not iterable, and `AttributeError` if
`store` is not a dict), decode each entry with `decodeEntry`, then drop the
habits whose `id` or `name` is empty (`if h.id and h.name`).  `todayS` is
today's ISO date, used as the `created_at` default. -/
def habits_from_store (todayS : String) (store : Json) : Except Unit (List HabitR) :=
  match store with
  | .obj fields =>
    match pyList (jsonGet fields "habits" (.arr [])) with
    | .error e => .error e
    | .ok entries =>
      match entries.mapM (decodeEntry todayS) with
      | .error e => .error e
      | .ok opts =>
        .ok (((opts.filterMap id).filter (fun h => h.id ≠ "" && h.name ≠ "")))
  | _ => .error ()

/-- `asdict(h)` on a `Habit`: the dict of its four fields, in declaration
order. -/
def habitToJson (h : HabitR) : Json :=
  .obj [("id", .str h.id), ("name", .str h.name),
        ("created_at", .str h.created_at), ("completions", .arr h.completions)]

/-- `store_from_habits(habits)`:
`{"version": SCHEMA_VERSION, "habits": [asdict(h) for h in habits]}`. -/
def store_from_habits (habits : List HabitR) : Json :=
  .obj [("version", .num SCHEMA_VERSION),
        ("habits", .arr (habits.map habitToJson))]

/-- `default_store()`: `{"version": SCHEMA_VERSION, "habits": []}`. -/
def default_store : Json :=
  .obj [("version", .num SCHEMA_VERSION), ("habits", .arr [])]

/-- State of the data file on disk: absent, present but unreadable
(`OSError` on open/read), or readable with the given byte content. -/
inductive FileState where
  | missing
  | unreadable
  | readable (content : String)
deriving Repr, DecidableEq

/-- The slice of the filesystem `load_store` touches: the data file
(`DATA_PATH`) and its sibling backup (`DATA_PATH + ".bak"`). -/
structure FS where
  data : FileState
  bak : Option FileState
deriving Repr, DecidableEq

/-- Python's `x == n` between a JSON-decoded value and an integer constant
(`store.get("version") != SCHEMA_VERSION`): true for the equal number, and —
because Python's `bool` is a subtype of `int` — for `True`/`False` equal to
`1`/`0`; every other decoded value compares unequal to an int. -/
def pyEqInt (j : Json) (n : Int) : Bool :=
  match j with
  | .num m => m == n
  | .bool b => (if b then (1 : Int) else 0) == n
  | _ => false

/-- The post-parse normalisation at the end of `load_store`: a non-dict or a
dict without a `"habits"` key is replaced by `default_store()`; a `version`
differing from `SCHEMA_VERSION` is stamped to `SCHEMA_VERSION`; a non-list
`habits` value is coerced to `[]`. -/
def normalizeStore (store : Json) : Json :=
  match store with
  | .obj fields =>
    if fields.any (fun p => p.1 == "habits") then
      let fields1 :=
        if pyEqInt (jsonGet fields "version" .null) SCHEMA_VERSION then fields
        else setKey fields "version" (.num SCHEMA_VERSION)
      let fields2 :=
        match jsonGet fields1 "habits" .null with
        | .arr _ => fields1
        | _ => setKey fields1 "habits" (.arr [])
      .obj fields2
    else default_store
  | _ => default_store

/-- Outcome of `json.load(f)` on a file with the given content — external
library behaviour, so `load_store` is parameterised over it.  `caught` is an
exception of one of the classes the source's `except` clause names
(`json.JSONDecodeError`, `OSError`); `uncaught` is any other exception —
reachable in Python, e.g. `UnicodeDecodeError` when the file's bytes are not
valid UTF-8 (the file is opened with `encoding="utf-8"`), or
`RecursionError` on deeply nested JSON; neither is a `json.JSONDecodeError`
nor an `OSError`. -/
inductive ReadResult where
  | ok (store : Json)
  | caught
  | uncaught
deriving Repr

/-- `load_store()`.  `parse` models `json.load` on the file's content; an
`unreadable` file models `OSError` on `open` (caught).  A missing file
yields `default_store()`; on a caught exception the file is moved wholesale
onto the backup path by `os.replace` (overwriting any previous backup) and
`default_store()` is returned; an uncaught exception propagates
(`Except.error`); otherwise the parsed value is normalised.  The function
returns the resulting filesystem next to the returned store. -/
def load_store (parse : String → ReadResult) (fs : FS) : Except Unit (FS × Json) :=
  match fs.data with
  | .missing => .ok (fs, default_store)
  | .unreadable => .ok ({ data := .missing, bak := some .unreadable }, default_store)
  | .readable s =>
    match parse s with
    | .caught => .ok ({ data := .missing, bak := some (.readable s) }, default_store)
    | .uncaught => .error ()
    | .ok store => .ok (fs, normalizeStore store)

/-- Python's `s.lower()`: lower-case each character (ASCII case mapping;
the names the claims involve are ASCII — Python additionally lower-cases
non-ASCII letters, which nothing here depends on). -/
def pyLower (s : String) : String :=
  String.mk (s.data.map Char.toLower)

/-- Python's `s <= t` on strings: lexicographic comparison by character
code (under which ISO `YYYY-MM-DD` dates compare chronologically). -/
def charListLe : List Char → List Char → Bool
  | [], _ => true
  | _ :: _, [] => false
  | a :: as, b :: bs =>
    if a < b then true
    else if b < a then false
    else charListLe as bs

/-- Lexicographic `≤` on strings (see `charListLe`). -/
def strLe (s t : String) : Bool :=
  charListLe s.data t.data

/-- A sequence of date strings is ascending when each adjacent pair is in
lexicographic (= chronological) order. -/
def Ascending (l : List String) : Prop :=
  List.Chain' (fun a b => strLe a b = true) l

/-- Core of `action_add`, with its I/O made explicit: `name` is the prompted
habit name, `newId` the fresh `uuid4` prefix, `todayS` today's ISO date.  The
returned boolean records which message was printed: `false` is the rejection
message `"A habit with that name already exists."` (and the habit list is
returned unchanged), `true` is the success message after appending the new
habit. -/
def action_add (habits : List HabitR) (name newId todayS : String) :
    List HabitR × Bool :=
  if habits.any (fun h => pyLower h.name == pyLower name) then (habits, false)
  else (habits ++ [{ id := newId, name := name, created_at := todayS,
                     completions := [] }], true)

/-- The decoder exactly as claim C3 / the spec describes it, total by
construction (a refinement target, deliberately written from the claim's
words, to be compared with `habits_from_store`, which is written from the
source): a non-record entry is skipped; in a record entry a missing `id` or
`name` defaults to the empty string, a missing `created_at` to the current
date, a missing `completions` to the empty sequence. -/
def habitsFromStoreSpecEntry (todayS : String) : Json → Option HabitR
  | .obj fields =>
    some { id := pyStr (jsonGet fields "id" (.str ""))
           name := pyStr (jsonGet fields "name" (.str ""))
           created_at := pyStr (jsonGet fields "created_at" (.str todayS))
           completions :=
             match pyList (jsonGet fields "completions" (.arr [])) with
             | .ok cs => cs
             | .error _ => [] }
  | _ => none

/-- The whole-store decoder as claim C3 / the spec describes it: decode each
entry with `habitsFromStoreSpecEntry` and drop every habit whose `id` or
`name` is empty after defaulting. -/
def habitsFromStoreSpec (todayS : String) (entries : List Json) : List HabitR :=
  (entries.filterMap (habitsFromStoreSpecEntry todayS)).filter
    (fun h => h.id ≠ "" && h.name ≠ "")

/-- Whether an entry's `completions` value (when the entry is a record and
the field is present) is iterable — the precondition under which Python's
`list(...)` in `habits_from_store` cannot raise. -/
def completionsIterable (e : Json) : Bool :=
  match e with
  | .obj fields =>
    match pyList (jsonGet fields "completions" (.arr [])) with
    | .ok _ => true
    | .error _ => false
  | _ => true

/-! ## Helper lemmas: `sortDedup` models `sorted(set(...))` -/

theorem mem_insertSorted (x a : Int) (l : List Int) :
    a ∈ insertSorted x l ↔ a = x ∨ a ∈ l := by
  induction l with
  | nil => simp [insertSorted]
  | cons y ys ih =>
    simp only [insertSorted]
    split
    · simp only [List.mem_cons]
    · split
      · rename_i h2
        subst h2
        simp only [List.mem_cons]
        tauto
      · simp only [List.mem_cons, ih]
        tauto

theorem sorted_insertSorted (x : Int) (l : List Int) (hl : l.Sorted (· < ·)) :
    (insertSorted x l).Sorted (· < ·) := by
  induction l with
  | nil => simp [insertSorted]
  | cons y ys ih =>
    rw [List.sorted_cons] at hl
    obtain ⟨hy, hys⟩ := hl
    simp only [insertSorted]
    split
    · rename_i h1
      rw [List.sorted_cons]
      refine ⟨?_, ?_⟩
      · intro b hb
        rcases List.mem_cons.mp hb with rfl | hb
        · exact h1
        · exact h1.trans (hy b hb)
      · rw [List.sorted_cons]
        exact ⟨hy, hys⟩
    · split
      · rw [List.sorted_cons]
        exact ⟨hy, hys⟩
      · rename_i h1 h2
        rw [List.sorted_cons]
        refine ⟨?_, ih hys⟩
        intro b hb
        rcases (mem_insertSorted x b ys).mp hb with rfl | hb
        · omega
        · exact hy b hb

theorem mem_sortDedup (a : Int) (l : List Int) : a ∈ sortDedup l ↔ a ∈ l := by
  induction l with
  | nil => simp [sortDedup]
  | cons y ys ih =>
    show a ∈ insertSorted y (sortDedup ys) ↔ _
    rw [mem_insertSorted]
    simp [ih]

theorem sorted_sortDedup (l : List Int) : (sortDedup l).Sorted (· < ·) := by
  induction l with
  | nil => simp [sortDedup]
  | cons y ys ih => exact sorted_insertSorted y _ ih

theorem mem_completion_set (h : Habit) (d : Int) :
    d ∈ h.completion_set ↔ d ∈ h.completions :=
  List.mem_dedup

/-! ## Helper lemmas: the backward walk of `current_streak` -/

theorem streakFrom_mem (completed : List Int) :
    ∀ (fuel : Nat) (day : Int) (i : Nat),
      i < streakFrom completed day fuel → day - (i : Int) ∈ completed := by
  intro fuel
  induction fuel with
  | zero =>
    intro day i hi
    simp [streakFrom] at hi
  | succ n ih =>
    intro day i hi
    simp only [streakFrom] at hi
    by_cases hd : day ∈ completed
    · rw [if_pos hd] at hi
      cases i with
      | zero => simpa using hd
      | succ j =>
        have hj : j < streakFrom completed (day - 1) n := by omega
        have hmem := ih (day - 1) j hj
        have heq : day - 1 - (j : Int) = day - ((j + 1 : Nat) : Int) := by
          push_cast
          ring
        rwa [heq] at hmem
    · rw [if_neg hd] at hi
      omega

theorem streakFrom_stop (completed : List Int) :
    ∀ (fuel : Nat) (day : Int),
      streakFrom completed day fuel < fuel →
      day - (streakFrom completed day fuel : Int) ∉ completed := by
  intro fuel
  induction fuel with
  | zero =>
    intro day h
    omega
  | succ n ih =>
    intro day h
    by_cases hd : day ∈ completed
    · simp only [streakFrom, if_pos hd] at h ⊢
      have h' : streakFrom completed (day - 1) n < n := by omega
      have hstop := ih (day - 1) h'
      intro hc
      apply hstop
      have heq : day - 1 - (streakFrom completed (day - 1) n : Int)
          = day - ((streakFrom completed (day - 1) n + 1 : Nat) : Int) := by
        push_cast
        ring
      rwa [← heq] at hc
    · simp only [streakFrom, if_neg hd]
      simpa using hd

theorem streakFrom_le (completed : List Int) (hnd : completed.Nodup)
    (day : Int) (fuel : Nat) :
    streakFrom completed day fuel ≤ completed.length := by
  have hsub : (Finset.range (streakFrom completed day fuel)).image
      (fun i : Nat => day - (i : Int)) ⊆ completed.toFinset := by
    intro d hd
    simp only [Finset.mem_image, Finset.mem_range] at hd
    obtain ⟨i, hi, rfl⟩ := hd
    rw [List.mem_toFinset]
    exact streakFrom_mem completed fuel day i hi
  have hcard : ((Finset.range (streakFrom completed day fuel)).image
      (fun i : Nat => day - (i : Int))).card = streakFrom completed day fuel := by
    rw [Finset.card_image_of_injective _ ?_, Finset.card_range]
    intro i j hij
    simp only at hij
    omega
  have hle := Finset.card_le_card hsub
  rw [hcard] at hle
  calc streakFrom completed day fuel ≤ completed.toFinset.card := hle
    _ = completed.length := List.toFinset_card_of_nodup hnd

/-! ## Claim theorems -/

/-- C1: `current_streak` returns the count of consecutive completed days
ending at the reference date: the walk starts at the reference date when it
is completed and at the day before otherwise (`streakStart`); every one of
the `current_streak` counted days, walking backward from the start, is in
the completion set, and the next day back is not (the first gap stops the
count — in particular the result is 0 when the starting day is not
completed, hence also when the completion set is empty).  Concretely:
completions {today, yesterday, day-2} with reference today give 3,
{day-2} gives 0, and {yesterday} gives 1. -/
theorem current_streak_correct :
    (∀ (h : Habit) (ref : Int),
        (∀ i : Nat, i < current_streak h ref →
          streakStart h ref - (i : Int) ∈ h.completion_set)
        ∧ streakStart h ref - (current_streak h ref : Int) ∉ h.completion_set)
    ∧ (∀ (h : Habit) (ref : Int),
        streakStart h ref ∉ h.completion_set → current_streak h ref = 0)
    ∧ current_streak ⟨"a", "run", 0, [0, -1, -2]⟩ 0 = 3
    ∧ current_streak ⟨"a", "run", 0, [-2]⟩ 0 = 0
    ∧ current_streak ⟨"a", "run", 0, [-1]⟩ 0 = 1 := by
  have main : ∀ (h : Habit) (ref : Int),
      (∀ i : Nat, i < current_streak h ref →
        streakStart h ref - (i : Int) ∈ h.completion_set)
      ∧ streakStart h ref - (current_streak h ref : Int) ∉ h.completion_set := by
    intro h ref
    by_cases hset : h.completion_set = []
    · rw [current_streak, if_pos hset]
      constructor
      · intro i hi
        omega
      · rw [hset]
        simp
    · have hnd : h.completion_set.Nodup := h.completions.nodup_dedup
      rw [current_streak, if_neg hset]
      have hlt : streakFrom h.completion_set (streakStart h ref)
          (h.completion_set.length + 1) < h.completion_set.length + 1 :=
        Nat.lt_succ_of_le (streakFrom_le _ hnd _ _)
      exact ⟨fun i hi => streakFrom_mem _ _ _ i hi, streakFrom_stop _ _ _ hlt⟩
  refine ⟨main, ?_, by decide, by decide, by decide⟩
  intro h ref hstart
  by_contra hne
  apply hstart
  have h0 : (0 : Nat) < current_streak h ref := Nat.pos_of_ne_zero hne
  have := (main h ref).1 0 h0
  simpa using this

/-- C1 witness: a habit completed only on `ref - 5` has streak 0 at `ref`,
since the walk's starting day (`ref - 1`, as `ref` is not completed) is not
in the completion set. -/
theorem current_streak_correct_witness :
    current_streak ⟨"a", "run", 0, [5]⟩ 10 = 0 :=
  current_streak_correct.2.1 ⟨"a", "run", 0, [5]⟩ 10 (by decide)

/-- C6: `mark_complete` makes `is_completed_on` true for the marked date,
returns `True` exactly when the date was not already present, a second call
with the same date returns `False` and changes nothing, and whenever an
insertion happened the resulting `completions` is an ascending-sorted,
duplicate-free sequence. -/
theorem mark_complete_correct :
    ∀ (h : Habit) (d : Int),
      (h.mark_complete d).1.is_completed_on d = true
      ∧ (h.mark_complete d).2 = !(h.is_completed_on d)
      ∧ (h.mark_complete d).1.mark_complete d = ((h.mark_complete d).1, false)
      ∧ ((h.mark_complete d).2 = true →
          List.Sorted (· ≤ ·) (h.mark_complete d).1.completions
          ∧ (h.mark_complete d).1.completions.Nodup) := by
  intro h d
  by_cases hd : d ∈ h.completion_set
  · rw [Habit.mark_complete, if_pos hd]
    refine ⟨?_, ?_, ?_, ?_⟩
    · simp [Habit.is_completed_on, hd]
    · simp [Habit.is_completed_on, hd]
    · rw [Habit.mark_complete, if_pos hd]
    · intro hcon
      simp at hcon
  · rw [Habit.mark_complete, if_neg hd]
    have hmem : d ∈ (sortDedup (d :: h.completions)) := by
      rw [mem_sortDedup]
      exact List.mem_cons_self d _
    have hset : d ∈ ({ h with completions := sortDedup (d :: h.completions) } :
        Habit).completion_set := by
      rw [mem_completion_set]
      exact hmem
    have hsorted := sorted_sortDedup (d :: h.completions)
    refine ⟨?_, ?_, ?_, ?_⟩
    · simp [Habit.is_completed_on, hset]
    · simp [Habit.is_completed_on, hd]
    · rw [Habit.mark_complete, if_pos hset]
    · intro _
      constructor
      · exact List.Pairwise.imp (fun hab => le_of_lt hab) hsorted
      · exact List.Pairwise.imp (fun hab => ne_of_lt hab) hsorted

/-- C6 witness: marking day 2 on a habit with completions `[3, 1]` inserts
it, and the resulting stored sequence is sorted and duplicate-free. -/
theorem mark_complete_correct_witness :
    List.Sorted (· ≤ ·) ((⟨"a", "run", 0, [3, 1]⟩ : Habit).mark_complete 2).1.completions
    ∧ ((⟨"a", "run", 0, [3, 1]⟩ : Habit).mark_complete 2).1.completions.Nodup :=
  (mark_complete_correct ⟨"a", "run", 0, [3, 1]⟩ 2).2.2.2 (by decide)

/-- C7: `unmark_complete` after `mark_complete` on the same date makes
`is_completed_on` false again, and `unmark_complete` on a date that is not
in the completion set returns `False` and leaves the habit unchanged. -/
theorem unmark_complete_correct :
    ∀ (h : Habit) (d : Int),
      ((h.mark_complete d).1.unmark_complete d).1.is_completed_on d = false
      ∧ (h.is_completed_on d = false → h.unmark_complete d = (h, false)) := by
  intro h d
  have hmarked : d ∈ (h.mark_complete d).1.completion_set := by
    rw [Habit.mark_complete]
    by_cases hd : d ∈ h.completion_set
    · rw [if_pos hd]
      exact hd
    · rw [if_neg hd, mem_completion_set]
      show d ∈ sortDedup (d :: h.completions)
      rw [mem_sortDedup]
      exact List.mem_cons_self d _
  constructor
  · rw [Habit.unmark_complete, if_pos hmarked]
    simp only [Habit.is_completed_on, Habit.completion_set, List.mem_dedup]
    rw [decide_eq_false_iff_not]
    rw [mem_sortDedup]
    simp
  · intro hno
    rw [Habit.is_completed_on, decide_eq_false_iff_not] at hno
    rw [Habit.unmark_complete, if_neg hno]

/-- C7 witness: unmarking day 2 on a habit whose only completion is day 1
reports no removal and leaves the habit unchanged. -/
theorem unmark_complete_correct_witness :
    (⟨"a", "run", 0, [1]⟩ : Habit).unmark_complete 2 = (⟨"a", "run", 0, [1]⟩, false) :=
  (unmark_complete_correct ⟨"a", "run", 0, [1]⟩ 2).2 (by decide)

theorem mem_weekDays (ref d : Int) :
    d ∈ (List.range 7).map (fun (i : Nat) => ref - (i : Int)) ↔ ref - 6 ≤ d ∧ d ≤ ref := by
  rw [List.mem_map]
  constructor
  · rintro ⟨i, hi, rfl⟩
    rw [List.mem_range] at hi
    omega
  · rintro ⟨h1, h2⟩
    refine ⟨(ref - d).toNat, ?_, ?_⟩
    · rw [List.mem_range]
      omega
    · omega

/-- C8: `weekly_summary` counts exactly the dates of the completion set that
fall among the 7 calendar days ending at the reference date inclusive (the
count over the deduplicated completion set is order-independent).
Concretely: completions on 3 of those 7 days give 3, and a completion 8 days
before the reference date is excluded. -/
theorem weekly_summary_correct :
    (∀ (h : Habit) (ref : Int),
        weekly_summary h ref =
          (h.completion_set.filter (fun d => decide (ref - 6 ≤ d ∧ d ≤ ref))).length)
    ∧ weekly_summary ⟨"a", "run", 0, [10, 8, 4]⟩ 10 = 3
    ∧ weekly_summary ⟨"a", "run", 0, [2]⟩ 10 = 0 := by
  refine ⟨?_, by decide, by decide⟩
  intro h ref
  have hdays : (((List.range 7).map (fun (i : Nat) => ref - (i : Int))).filter
      (fun d => decide (d ∈ h.completion_set))).Nodup := by
    apply List.Nodup.filter
    apply List.Nodup.map ?_ (List.nodup_range 7)
    intro i j hij
    simp only at hij
    omega
  have hset : (h.completion_set.filter
      (fun d => decide (ref - 6 ≤ d ∧ d ≤ ref))).Nodup :=
    List.Nodup.filter _ h.completions.nodup_dedup
  rw [weekly_summary, ← List.toFinset_card_of_nodup hdays,
    ← List.toFinset_card_of_nodup hset]
  congr 1
  ext d
  simp only [List.mem_toFinset, List.mem_filter, decide_eq_true_eq, mem_weekDays]
  tauto

/-- C10: `weekly_summary` always returns between 0 and 7 (it counts
membership over exactly 7 distinct days), whatever the stored completions
list — the bound holds for every habit, unsorted or duplicated completions
included (the result is a `Nat`, so it is at least 0 by type; the example
has a duplicated, unsorted stored list). -/
theorem weekly_summary_bounded :
    (∀ (h : Habit) (ref : Int),
        0 ≤ weekly_summary h ref ∧ weekly_summary h ref ≤ 7)
    ∧ weekly_summary ⟨"a", "run", 0, [5, 5, 3, 3, 1]⟩ 5 = 3 := by
  refine ⟨?_, by decide⟩
  intro h ref
  refine ⟨Nat.zero_le _, ?_⟩
  calc (((List.range 7).map (fun (i : Nat) => ref - (i : Int))).filter
        (fun d => decide (d ∈ h.completion_set))).length
      ≤ ((List.range 7).map (fun (i : Nat) => ref - (i : Int))).length :=
        List.length_filter_le _ _
    _ = 7 := by rw [List.length_map, List.length_range]

/-! ## Helper lemmas: the codec -/

theorem decodeEntry_eq_spec (todayS : String) (e : Json)
    (he : completionsIterable e = true) :
    decodeEntry todayS e = .ok (habitsFromStoreSpecEntry todayS e) := by
  cases e with
  | obj fields =>
    simp only [completionsIterable] at he
    simp only [decodeEntry, habitsFromStoreSpecEntry]
    cases hpl : pyList (jsonGet fields "completions" (.arr [])) with
    | error u =>
      rw [hpl] at he
      simp at he
    | ok cs =>
      simp only [hpl]
  | null => rfl
  | bool b => rfl
  | num n => rfl
  | str s => rfl
  | arr xs => rfl

theorem mapM_decodeEntry (todayS : String) :
    ∀ (entries : List Json), (∀ e ∈ entries, completionsIterable e = true) →
      entries.mapM (decodeEntry todayS)
        = .ok (entries.map (habitsFromStoreSpecEntry todayS)) := by
  intro entries
  induction entries with
  | nil => intro _; rfl
  | cons e t ih =>
    intro hpre
    have he : completionsIterable e = true := hpre e (List.mem_cons_self e t)
    have ht : ∀ x ∈ t, completionsIterable x = true :=
      fun x hx => hpre x (List.mem_cons_of_mem e hx)
    rw [List.mapM_cons, decodeEntry_eq_spec todayS e he, ih ht]
    rfl

theorem decodeEntry_habitToJson (todayS : String) (h : HabitR) :
    decodeEntry todayS (habitToJson h) = .ok (some h) :=
  rfl

/-- C2, good paths (supporting result, not itself a claim status): a missing
data file yields the fresh empty document with the filesystem untouched; a
caught read/parse failure (`json.JSONDecodeError` or `OSError`) moves the
file wholesale to the sibling `.bak` path — overwriting any prior backup —
and returns the fresh empty document. -/
theorem load_store_resilient :
    (∀ (parse : String → ReadResult) (fs : FS),
        fs.data = .missing → load_store parse fs = .ok (fs, default_store))
    ∧ (∀ (parse : String → ReadResult) (bak : Option FileState) (s : String),
        parse s = .caught →
        load_store parse ⟨.readable s, bak⟩
          = .ok (⟨.missing, some (.readable s)⟩, default_store))
    ∧ (∀ (parse : String → ReadResult) (bak : Option FileState),
        load_store parse ⟨.unreadable, bak⟩
          = .ok (⟨.missing, some .unreadable⟩, default_store))
    ∧ default_store = .obj [("version", .num SCHEMA_VERSION), ("habits", .arr [])] := by
  refine ⟨?_, ?_, ?_, rfl⟩
  · intro parse fs hmiss
    obtain ⟨d, b⟩ := fs
    simp only at hmiss
    subst hmiss
    rfl
  · intro parse bak s hp
    simp only [load_store, hp]
  · intro parse bak
    rfl

/-- Supporting witness for `load_store_resilient`: a file whose parse fails
with a caught exception class is backed up — replacing the previous backup —
and a fresh empty document is returned. -/
theorem load_store_resilient_witness :
    load_store (fun _ => .caught) ⟨.readable "garbage", some .unreadable⟩
      = .ok (⟨.missing, some (.readable "garbage")⟩, default_store) :=
  load_store_resilient.2.1 (fun _ => .caught) (some .unreadable) "garbage" rfl

/-- C2 failing input: `load_store` is *not* exception-free for every byte
content.  The data file is opened with `encoding="utf-8"`, so on content
that is not valid UTF-8 (e.g. the single byte `0xFF`, which the string
below stands for) `json.load` raises `UnicodeDecodeError` — which the
source's `except (json.JSONDecodeError, OSError)` clause does not catch.
The exception propagates: no backup is made and no fresh document is
returned, contradicting the claim (and the source's own comment "If file
is corrupted, don't crash"). -/
theorem load_store_uncaught :
    load_store (fun _ => .uncaught) ⟨.readable "\xff stands for byte 0xFF", none⟩
      = .error () :=
  rfl

/-- C3 counterexample: on a record document holding one habit record whose
`completions` field is the number `5`, `habits_from_store` raises
(`list(5)` is a `TypeError` in the source), so decode does surface an error
for this input document. -/
theorem habits_from_store_raises :
    habits_from_store "2024-01-01"
        (.obj [("habits", .arr [.obj [("id", .str "a"), ("name", .str "b"),
                                      ("completions", .num 5)]])])
      = .error () :=
  rfl

/-- C3 (amended): for every record document whose `habits` value (or its
default `[]`) is iterable and whose record entries have iterable (or absent)
`completions` values, `habits_from_store` surfaces no error and returns
exactly what the spec describes (`habitsFromStoreSpec`): non-record entries
are skipped, missing `id`/`name` default to the empty string, missing
`created_at` defaults to the current date, missing `completions` defaults to
the empty sequence, and every decoded habit whose `id` or `name` is empty
after defaulting is dropped. -/
theorem habits_from_store_tolerant :
    ∀ (todayS : String) (fields : List (String × Json)) (entries : List Json),
      pyList (jsonGet fields "habits" (.arr [])) = .ok entries →
      (∀ e ∈ entries, completionsIterable e = true) →
      habits_from_store todayS (.obj fields)
        = .ok (habitsFromStoreSpec todayS entries) := by
  intro todayS fields entries hentries hpre
  simp only [habits_from_store, hentries, mapM_decodeEntry todayS entries hpre,
    habitsFromStoreSpec, List.filterMap_map]
  rfl

/-- C3 witness: a document whose habit entries are a number (skipped), an
empty record (defaults, then dropped for empty id/name) and a partial record
(kept with defaults) decodes without error to what the spec describes. -/
theorem habits_from_store_tolerant_witness :
    habits_from_store "2024-03-03"
        (.obj [("habits", .arr [.num 1, .obj [],
                                .obj [("id", .str "a"), ("name", .str "n")]])])
      = .ok (habitsFromStoreSpec "2024-03-03"
          [.num 1, .obj [], .obj [("id", .str "a"), ("name", .str "n")]]) :=
  habits_from_store_tolerant "2024-03-03"
    [("habits", .arr [.num 1, .obj [], .obj [("id", .str "a"), ("name", .str "n")]])]
    [.num 1, .obj [], .obj [("id", .str "a"), ("name", .str "n")]]
    rfl (by decide)

/-- C4 counterexample: `store_from_habits` serialises each habit's
`completions` verbatim (`asdict`), so for a habit whose stored sequence is
out of order the output's completions sequence is not ascending —
contradicting the claim that the output is sorted ascending for every list
of habits. -/
theorem store_from_habits_unsorted :
    store_from_habits [⟨"a", "n", "2024-01-01",
        [.str "2024-01-02", .str "2024-01-01"]⟩]
      = .obj [("version", .num SCHEMA_VERSION),
              ("habits", .arr [.obj [("id", .str "a"), ("name", .str "n"),
                  ("created_at", .str "2024-01-01"),
                  ("completions", .arr [.str "2024-01-02", .str "2024-01-01"])]])]
    ∧ ¬ Ascending ["2024-01-02", "2024-01-01"] := by
  refine ⟨rfl, ?_⟩
  intro hasc
  rw [Ascending, List.chain'_cons] at hasc
  exact absurd hasc.1 (by decide)

/-- C4 (amended): `store_from_habits` returns a document whose `version`
field is the current schema version and whose `habits` field is the
full, in-order serialisation of each habit, each habit's `completions`
sequence emitted verbatim — hence ascending in the output whenever the
habit's stored sequence is ascending. -/
theorem store_from_habits_correct :
    ∀ (habits : List HabitR),
      (∃ fields, store_from_habits habits = .obj fields
          ∧ jsonGet fields "version" .null = .num SCHEMA_VERSION
          ∧ jsonGet fields "habits" .null = .arr (habits.map habitToJson))
      ∧ (∀ h ∈ habits, ∃ hfields, habitToJson h = .obj hfields
          ∧ jsonGet hfields "completions" .null = .arr h.completions)
      ∧ (∀ h ∈ habits, ∀ ss : List String,
          h.completions = ss.map Json.str → Ascending ss →
          ∃ hfields, habitToJson h = .obj hfields
            ∧ ∃ ss2 : List String,
                jsonGet hfields "completions" .null = .arr (ss2.map Json.str)
                ∧ Ascending ss2) := by
  intro habits
  refine ⟨⟨_, rfl, rfl, rfl⟩, ?_, ?_⟩
  · intro h _
    exact ⟨_, rfl, rfl⟩
  · intro h _ ss hss hasc
    refine ⟨_, rfl, ss, ?_, hasc⟩
    show Json.arr h.completions = Json.arr (ss.map Json.str)
    rw [hss]

/-- C4 witness: a habit with ascending stored completions serialises with
its `completions` field ascending. -/
theorem store_from_habits_correct_witness :
    ∃ hfields, habitToJson ⟨"a", "n", "2024-01-01", [.str "2024-01-05"]⟩ = .obj hfields
      ∧ ∃ ss2 : List String,
          jsonGet hfields "completions" .null = .arr (ss2.map Json.str)
          ∧ Ascending ss2 :=
  (store_from_habits_correct [⟨"a", "n", "2024-01-01", [.str "2024-01-05"]⟩]).2.2
    ⟨"a", "n", "2024-01-01", [.str "2024-01-05"]⟩ (List.mem_singleton.mpr rfl)
    ["2024-01-05"] rfl (by constructor)

/-- C5 counterexample: the decode-encode round trip reproduces an unsorted
stored completions sequence verbatim — it is not normalised to ascending,
contradicting that part of the claim (the tuples themselves are equal). -/
theorem decode_encode_not_normalizing :
    habits_from_store "2024-01-01"
        (store_from_habits [⟨"a", "n", "2024-01-01",
            [.str "2024-01-02", .str "2024-01-01"]⟩])
      = .ok [⟨"a", "n", "2024-01-01", [.str "2024-01-02", .str "2024-01-01"]⟩]
    ∧ ¬ Ascending ["2024-01-02", "2024-01-01"] := by
  refine ⟨rfl, ?_⟩
  intro hasc
  rw [Ascending, List.chain'_cons] at hasc
  exact absurd hasc.1 (by decide)

/-- C5 (amended): for every list of well-formed habits (non-empty `id` and
`name`), `habits_from_store` of `store_from_habits` returns exactly the
input habits: same `(id, name, created_at, completions)` — hence the same
completion sets — with the order of the habit sequence preserved and each
`completions` sequence reproduced verbatim (so it is ascending in the
output exactly when it was in the input). -/
theorem decode_encode_roundtrip :
    ∀ (todayS : String) (habits : List HabitR),
      (∀ h ∈ habits, h.id ≠ "" ∧ h.name ≠ "") →
      habits_from_store todayS (store_from_habits habits) = .ok habits := by
  intro todayS habits hwf
  have hmapM : (habits.map habitToJson).mapM (decodeEntry todayS)
      = .ok (habits.map some) := by
    clear hwf
    induction habits with
    | nil => rfl
    | cons h t ih =>
      rw [List.map_cons, List.mapM_cons, decodeEntry_habitToJson, ih]
      rfl
  have hstep : habits_from_store todayS (store_from_habits habits)
      = match (habits.map habitToJson).mapM (decodeEntry todayS) with
        | .error e => .error e
        | .ok opts =>
          .ok ((opts.filterMap id).filter (fun h => h.id ≠ "" && h.name ≠ "")) := rfl
  rw [hstep, hmapM]
  show Except.ok (((habits.map some).filterMap id).filter
    (fun h => h.id ≠ "" && h.name ≠ "")) = Except.ok habits
  rw [List.filterMap_map, Function.id_comp, List.filterMap_some habits,
    List.filter_eq_self.mpr]
  intro h hmem
  have := hwf h hmem
  simp [this.1, this.2]

/-- C5 witness: a concrete well-formed habit round-trips unchanged. -/
theorem decode_encode_roundtrip_witness :
    habits_from_store "2024-02-02"
        (store_from_habits [⟨"a", "run", "2024-01-01", [.str "2024-01-05"]⟩])
      = .ok [⟨"a", "run", "2024-01-01", [.str "2024-01-05"]⟩] :=
  decode_encode_roundtrip "2024-02-02" [⟨"a", "run", "2024-01-01", [.str "2024-01-05"]⟩]
    (by
      intro h hm
      rw [List.mem_singleton] at hm
      subst hm
      exact ⟨by decide, by decide⟩)

/-- C9: adding a habit whose name case-insensitively equals an existing
habit's name is rejected: the habit sequence is returned unchanged and the
outcome reports the rejection (the printed message, not an exception).
Concretely, adding "Run" when "run" exists changes nothing. -/
theorem action_add_rejects_duplicates :
    (∀ (habits : List HabitR) (name newId todayS : String),
        (∃ h ∈ habits, pyLower h.name = pyLower name) →
        action_add habits name newId todayS = (habits, false))
    ∧ action_add [⟨"i1", "run", "2024-01-01", []⟩] "Run" "i2" "2024-01-02"
        = ([⟨"i1", "run", "2024-01-01", []⟩], false) := by
  constructor
  · rintro habits name newId todayS ⟨h, hmem, hname⟩
    have hany : habits.any (fun h => pyLower h.name == pyLower name) = true :=
      List.any_eq_true.mpr ⟨h, hmem, by simp [hname]⟩
    rw [action_add, if_pos hany]
  · rfl

/-- C9 witness: a duplicate differing only in case is rejected and the
sequence is unchanged. -/
theorem action_add_rejects_duplicates_witness :
    action_add [⟨"i1", "jog", "2024-01-01", []⟩] "JOG" "i9" "2024-02-02"
      = ([⟨"i1", "jog", "2024-01-01", []⟩], false) :=
  action_add_rejects_duplicates.1 [⟨"i1", "jog", "2024-01-01", []⟩] "JOG" "i9" "2024-02-02"
    ⟨⟨"i1", "jog", "2024-01-01", []⟩, List.mem_singleton.mpr rfl, by decide⟩

end HabitTracker
